import Mathlib

/-!
Verification development for the sqs-batch repository.

The definitions below are a shallow embedding of the repository's
JavaScript source:
* `Memory` embeds `lib/buffers/memory.js` (the `Memory` buffer class:
  `add`, `_flush`, `_startTimer`, `_stopTimer`).
* `Receiver` embeds the `Receiver` class (`_validate`, `_poll`, `stop`,
  `_internalMessageReceiver`, `_internalMessageProcessor`,
  `deleteMessage`, `_deleteMessageBatch`, `_deleteMessageBatchPromise`,
  `_handleErrors`, `_messageProcessed`).
Effectful code is embedded as pure functions returning explicit action
traces; the mutable array passed to `_deleteMessageBatch` is embedded
with a small explicit store so that aliasing of the caller's array is
modelled faithfully.
-/

namespace SqsBatch

/-! ## Memory buffer (lib/buffers/memory.js) -/

namespace Memory

/-- State of one `Memory` buffer instance: the `items` array and whether
`timerId` currently holds a live timer (`timerId !== null`). -/
structure MemState (α : Type) where
  items : List α
  timerOn : Bool
deriving DecidableEq, Repr

/-- `_startTimer`: starting a timer when one is already live is a no-op. -/
def startTimer {α : Type} (s : MemState α) : MemState α :=
  if s.timerOn then s else { s with timerOn := true }

/-- `_flush`: stop the timer, emit the current `items`, reset `items` to `[]`.
Returns the emitted batch together with the post-flush state. -/
def flushFire {α : Type} (s : MemState α) : List α × MemState α :=
  (s.items, ⟨[], false⟩)

/-- The single-item path of `Memory.add`: push the item, flush when the
buffer reached `bufferSize`, otherwise (re)start the timer.
Returns the list of emitted flushes and the new state. -/
def addOne {α : Type} (cap : ℕ) (s : MemState α) (x : α) :
    List (List α) × MemState α :=
  let s1 : MemState α := { s with items := s.items ++ [x] }
  if s1.items.length = cap then
    ([s1.items], ⟨[], false⟩)
  else
    ([], startTimer s1)

/-- The array path of `Memory.add`.  When the incoming items overflow the
buffer, the first `bufferSize - currentSize` items are appended, the
buffer is flushed, and `add` recurses on the remainder; when they exactly
fill it, everything is appended and flushed; otherwise everything is
appended and the timer is (re)started.  `hcap` reflects the constructor
validation: a falsy `bufferSize` (in particular `0`) is rejected, so a
constructed buffer always has `bufferSize ≥ 1`. -/
def addArr {α : Type} (cap : ℕ) (hcap : 1 ≤ cap) (s : MemState α)
    (xs : List α) : List (List α) × MemState α :=
  if h : cap < s.items.length + xs.length then
    -- `available = bufferSize - currentSize`; append `sliced`, `_flush`,
    -- then recurse on `remaining` against the now-empty buffer.
    let rest := addArr cap hcap ⟨[], false⟩ (xs.drop (cap - s.items.length))
    ((s.items ++ xs.take (cap - s.items.length)) :: rest.1, rest.2)
  else if s.items.length + xs.length = cap then
    ([s.items ++ xs], ⟨[], false⟩)
  else
    ([], startTimer ⟨s.items ++ xs, s.timerOn⟩)
termination_by xs.length + s.items.length
decreasing_by
  simp only [List.length_drop, List.length_nil]
  omega

/-- An argument to `Memory.add`: a single item or an array of items. -/
inductive AddInput (α : Type) where
  | one (a : α)
  | arr (l : List α)
deriving DecidableEq, Repr

/-- `Memory.add` on either kind of argument. -/
def memAdd {α : Type} (cap : ℕ) (hcap : 1 ≤ cap) (s : MemState α) :
    AddInput α → List (List α) × MemState α
  | .one a => addOne cap s a
  | .arr l => addArr cap hcap s l

/-- The items carried by one `add` argument. -/
def AddInput.itemsOf {α : Type} : AddInput α → List α
  | .one a => [a]
  | .arr l => l

/-- An `add` argument is non-empty when it carries at least one item. -/
def AddInput.nonEmpty {α : Type} : AddInput α → Bool
  | .one _ => true
  | .arr l => !l.isEmpty

/-- The fresh state of a newly constructed buffer: no items, no timer. -/
def initState (α : Type) : MemState α := ⟨[], false⟩

/-- Run a sequence of `add` calls, accumulating all emitted flushes. -/
def runAdds {α : Type} (cap : ℕ) (hcap : 1 ≤ cap) (s : MemState α) :
    List (AddInput α) → List (List α) × MemState α
  | [] => ([], s)
  | i :: rest =>
    let r1 := memAdd cap hcap s i
    let r2 := runAdds cap hcap r1.2 rest
    (r1.1 ++ r2.1, r2.2)

/-- An operation on a live buffer: an `add` call, or the deferred-flush
timer firing (which can only happen while the timer is live). -/
inductive MemOp (α : Type) where
  | add (i : AddInput α)
  | fire
deriving DecidableEq

/-- The timer firing runs `_flush`; a timer that is not live cannot fire. -/
def fireTimer {α : Type} (s : MemState α) : MemState α :=
  if s.timerOn then (flushFire s).2 else s

/-- One buffer operation, state part. -/
def stepOp {α : Type} (cap : ℕ) (hcap : 1 ≤ cap) (s : MemState α) :
    MemOp α → MemState α
  | .add i => (memAdd cap hcap s i).2
  | .fire => fireTimer s

/-- Run a sequence of buffer operations from a state. -/
def runOps {α : Type} (cap : ℕ) (hcap : 1 ≤ cap) (s : MemState α) :
    List (MemOp α) → MemState α
  | [] => s
  | op :: rest => runOps cap hcap (stepOp cap hcap s op) rest

/-- An operation carries only non-empty input. -/
def MemOp.nonEmpty {α : Type} : MemOp α → Bool
  | .add i => i.nonEmpty
  | .fire => true

/-- The timer/size invariant of a live buffer: the item count stays below
`bufferSize`, and the timer is live exactly when the buffer is non-empty. -/
def InvT {α : Type} (cap : ℕ) (s : MemState α) : Prop :=
  s.items.length < cap ∧ (s.timerOn = true ↔ 0 < s.items.length)

end Memory

/-- Concrete `bufferSize ≥ 1` facts used to instantiate the buffer model. -/
def oneLeTwo : (1 : ℕ) ≤ 2 := by decide

def oneLeThree : (1 : ℕ) ≤ 3 := by decide

/-! ## Chunking into groups of at most 10 (`_deleteMessageBatch`'s
`messages.splice(0, 10)` loop). -/

/-- Split a list into consecutive chunks of at most 10 elements, as the
`while (messages.length) { messages.splice(0, 10) }` loop does. -/
def chunks10 {α : Type} : List α → List (List α)
  | [] => []
  | x :: xs => ((x :: xs).take 10) :: chunks10 ((x :: xs).drop 10)
termination_by l => l.length
decreasing_by simp; omega

/-! ## Receiver (the `Receiver` class) -/

namespace Receiver

/-- An SQS message as the `Receiver` uses it: `MessageId`, `ReceiptHandle`,
`Body`. -/
structure Msg where
  messageId : String
  receiptHandle : String
  body : String
deriving DecidableEq, Repr

/-- A JavaScript `err.code` value: the code compares it both against the
number `403` and the string `CredentialsError`. -/
inductive JsCode where
  | num (n : ℤ)
  | str (s : String)
deriving DecidableEq, Repr

/-- A raw failure delivered to the `receiveMessage` callback. -/
structure SqsErr where
  code : JsCode
deriving DecidableEq, Repr

/-- The string compared against `err.code` in `_internalMessageReceiver`. -/
def credentialsCode : String := "CredentialsError"

/-- `err.code === 403 || err.code === 'CredentialsError'`. -/
def isAuthErr (e : SqsErr) : Bool :=
  e.code == JsCode.num 403 || e.code == JsCode.str credentialsCode

/-- How a function is handed around as a callback: `this._pollBound`
(bound to the receiver) or the raw method `this._poll` (whose `this` is
not the receiver when later invoked). -/
inductive Callback where
  | bound
  | unbound
deriving DecidableEq, Repr

/-- The argument an application passes to the acknowledgment handle
`deleteMessage`: nothing, an `Error` value, a single message object, or
an array of messages. -/
inductive DelInput where
  | noMsg
  | errVal
  | single (m : Msg)
  | arr (l : List Msg)
deriving DecidableEq, Repr

/-- Notification channels emitted by the `Receiver`
(`error`, `message:received`, `processing:error`, `message:processed`,
`stopped`). -/
inductive Event where
  | errorEv
  | messageReceived (msgs : List Msg)
  | processingErrorEv
  | messageProcessed (payload : DelInput)
  | stoppedEv
deriving DecidableEq, Repr

/-- One observable action of the `Receiver`: an event emission, an SQS
request, an internal `_poll()` invocation, or a `setTimeout` scheduling. -/
inductive Action where
  | emit (e : Event)
  | receiveCall
  | pollInvoke
  | schedule (delayMs : ℕ) (cb : Callback)
  | bufferAdd (msgs : List Msg) (cb : Callback)
  | callReceiver (msgs : List Msg)
  | deleteOneCall (receiptHandle : String)
  | deleteBatchCall (entries : List (String × String))
deriving DecidableEq, Repr

/-- Consumer control state: the `stopped` flag, plus whether a receive
request is currently in flight (tracked to express that `stop()` does not
abort it). -/
structure RState where
  stopped : Bool
  inflight : Bool
deriving DecidableEq, Repr

/-- `_poll`: when not stopped, issue `sqs.receiveMessage`; otherwise emit
the `stopped` event and issue nothing. -/
def pollStep (s : RState) : List Action :=
  if s.stopped = false then [.receiveCall] else [.emit .stoppedEv]

/-- `stop()`: set `this.stopped = true` and nothing else. -/
def stop (s : RState) : RState := { s with stopped := true }

/-- `options.authenticationErrorTimeout || 10000` (JS `||`: `0` is falsy). -/
def effAuthTimeout (o : Option ℕ) : ℕ :=
  match o with
  | none => 10000
  | some t => if t = 0 then 10000 else t

/-- Truthiness of `this.bufferSize` (`if (this.bufferSize)`). -/
def bufferConfigured (bufferSize : Option ℕ) : Bool :=
  match bufferSize with
  | none => false
  | some n => n != 0

/-- `_internalMessageProcessor`: emit `message:received` with the full
set, then either hand the set (and `this._pollBound`) to `buffer.add`, or
invoke `messageReceiver` with the set.  Note: no `_poll()` call occurs in
either branch. -/
def internalMessageProcessor (bufferSize : Option ℕ) (messages : List Msg) :
    List Action :=
  Action.emit (.messageReceived messages) ::
    (if bufferConfigured bufferSize then [.bufferAdd messages .bound]
     else [.callReceiver messages])

/-- `_internalMessageReceiver`: on an error, classify it; authentication
errors (`403` / `CredentialsError`) emit `error` (via `_handleErrors`,
`SQSAuthenticationError`) and schedule the raw `this._poll` after the
authentication timeout; any other error emits `error` (`SQSError`) and
returns.  On success, non-empty message sets go to
`_internalMessageProcessor`, otherwise `_poll()` runs again. -/
def internalMessageReceiver (bufferSize : Option ℕ) (authTimeout : ℕ)
    (err : Option SqsErr) (response : Option (List Msg)) : List Action :=
  match err with
  | some e =>
    if isAuthErr e then
      [.emit .errorEv, .schedule authTimeout .unbound]
    else
      [.emit .errorEv]
  | none =>
    match response with
    | some msgs =>
      if 0 < msgs.length then internalMessageProcessor bufferSize msgs
      else [.pollInvoke]
    | none => [.pollInvoke]

/-- What happens when a scheduled callback later runs: the bound
`this._pollBound` performs `_poll` on the receiver; the raw `this._poll`
runs with `this` not being the receiver, so no poll of this consumer
takes place. -/
def runScheduledPoll (cb : Callback) (s : RState) : Option (List Action) :=
  match cb with
  | .bound => some (pollStep s)
  | .unbound => none

/-- Result of one `sqs.deleteMessageBatch` call: a call-level error, or a
response carrying `data.Failed` with the given number of failed entries. -/
inductive BatchRes where
  | err
  | ok (failedCount : ℕ)
deriving DecidableEq, Repr

/-- `_deleteMessageBatchPromise` resolves exactly when the call returned
no error and `data.Failed` is empty. -/
def chunkSucceeds : BatchRes → Bool
  | .err => false
  | .ok k => k == 0

/-- `Promise.all` over the chunk promises: succeeds iff every chunk call
succeeded. -/
def allChunksOk (res : ℕ → BatchRes) (n : ℕ) : Bool :=
  (List.range n).all fun i => chunkSucceeds (res i)

/-- The `Entries` built for one chunk:
`{ Id: item.MessageId, ReceiptHandle: item.ReceiptHandle }`. -/
def entriesOf (c : List Msg) : List (String × String) :=
  c.map fun m => (m.messageId, m.receiptHandle)

/-- A fallback message value, used only to express `message[0] || message`
on the (unreachable for this branch) empty-array case. -/
def defaultMsg : Msg := ⟨toString 0, toString 0, toString 0⟩

/-- A concrete message used to instantiate theorems on explicit inputs. -/
def mkMsg (n : ℕ) : Msg := ⟨toString n, toString n, toString n⟩

/-- The single-message path of `deleteMessage` (`_deleteMessageOne` plus
its callback): one `sqs.deleteMessage` call; on failure, `_handleErrors`
with an `SQSError` (emitting `error`) then `_poll()`; on success,
`_messageProcessed` (emitting `message:processed` with the original
argument) then `_poll()`. -/
def deleteOnePath (delOneErr : Option SqsErr) (input : DelInput) (m : Msg) :
    List Action :=
  match delOneErr with
  | some _ => [.deleteOneCall m.receiptHandle, .emit .errorEv, .pollInvoke]
  | none =>
    [.deleteOneCall m.receiptHandle, .emit (.messageProcessed input),
      .pollInvoke]

/-- The batch path of `deleteMessage` (`_deleteMessageBatch` over the
`[].concat(message)` copy): one `deleteMessageBatch` call per
`splice(0, 10)` chunk; if all chunks succeed, `_messageProcessed` with the
original argument then `_poll()`; otherwise `_handleErrors` with an
`SQSError` (emitting `error`) then `_poll()`. -/
def deleteBatchPath (res : ℕ → BatchRes) (input : DelInput) (l : List Msg) :
    List Action :=
  let calls := (chunks10 l).map fun c => Action.deleteBatchCall (entriesOf c)
  if allChunksOk res (chunks10 l).length then
    calls ++ [.emit (.messageProcessed input), .pollInvoke]
  else
    calls ++ [.emit .errorEv, .pollInvoke]

/-- `deleteMessage`: no argument reports a `ConsumerDeleteError`
(`processing:error`) and re-polls; an `Error` value reports a
`ProcessingError` (`processing:error`) and re-polls; a non-array or a
one-element array goes through `_deleteMessageOne`; any other array goes
through `_deleteMessageBatch` on a copy. -/
def deleteMessage (delOneErr : Option SqsErr) (res : ℕ → BatchRes) :
    DelInput → List Action
  | .noMsg => [.emit .processingErrorEv, .pollInvoke]
  | .errVal => [.emit .processingErrorEv, .pollInvoke]
  | .single m => deleteOnePath delOneErr (.single m) m
  | .arr l =>
    if l.length = 1 then
      deleteOnePath delOneErr (.arr l) (l.headD defaultMsg)
    else
      deleteBatchPath res (.arr l) l

/-- `Action` classifiers used to count calls and emissions in a trace. -/
def Action.isBatchCall : Action → Bool
  | .deleteBatchCall _ => true
  | _ => false

def Action.isDeleteCall : Action → Bool
  | .deleteOneCall _ => true
  | .deleteBatchCall _ => true
  | _ => false

def Action.isProcessedEmit : Action → Bool
  | .emit (.messageProcessed _) => true
  | _ => false

def Action.isProcessingErrorEmit : Action → Bool
  | .emit .processingErrorEv => true
  | _ => false

def Action.isSchedule : Action → Bool
  | .schedule _ _ => true
  | _ => false

/-! ### Constructor validation (`Receiver._validate`) -/

/-- The option fields `_validate` can name in a configuration error. -/
inductive ConfigField where
  | queueUrl
  | messageReceiver
  | batchSize
  | bufferSize
deriving DecidableEq, Repr

/-- The options relevant to `_validate`: whether `queueUrl` and
`messageReceiver` are present (truthy), and the raw numeric options
(`none` embeds a JS `undefined`). -/
structure ROptions where
  queueUrl : Bool
  messageReceiver : Bool
  batchSize : Option ℕ
  bufferSize : Option ℕ
deriving DecidableEq, Repr

/-- `options.batchSize < 1 || options.batchSize > 10`: with `batchSize`
undefined both comparisons are false in JS. -/
def batchSizeOutOfRange (o : ROptions) : Bool :=
  match o.batchSize with
  | some k => decide (k < 1) || decide (10 < k)
  | none => false

/-- `options.bufferSize <= options.batchSize`: with either side undefined
the comparison is false in JS. -/
def bufferSizeLeBatch (o : ROptions) : Bool :=
  match o.bufferSize, o.batchSize with
  | some b, some k => decide (b ≤ k)
  | _, _ => false

/-- `_validate`: the first failing check wins; `none` means construction
succeeds. -/
def validateResult (o : ROptions) : Option ConfigField :=
  if o.queueUrl = false then some .queueUrl
  else if o.messageReceiver = false then some .messageReceiver
  else if batchSizeOutOfRange o then some .batchSize
  else if bufferSizeLeBatch o then some .bufferSize
  else none

/-- The claim's validation predicate, written from the claim's words:
construction fails iff `queueUrl` is missing, or `messageReceiver` is
missing, or `batchSize` lies outside `[1, 10]`, or `bufferSize` is set
and not strictly greater than the effective batch size
(`batchSize` defaulting to `1` when omitted). -/
def claimThrows (o : ROptions) : Bool :=
  !o.queueUrl || !o.messageReceiver || batchSizeOutOfRange o ||
    (match o.bufferSize with
     | some b => decide (b ≤ o.batchSize.getD 1)
     | none => false)

/-- The amended validation predicate: as the claim, except that the
`bufferSize` check only applies when `batchSize` is explicitly set (the
code compares the raw options, and a comparison with an absent
`batchSize` is false). -/
def amendedThrows (o : ROptions) : Prop :=
  o.queueUrl = false ∨ o.messageReceiver = false ∨
    (∃ k, o.batchSize = some k ∧ (k < 1 ∨ 10 < k)) ∨
    (∃ b k, o.bufferSize = some b ∧ o.batchSize = some k ∧ b ≤ k)

/-! ### The caller's array under `deleteMessage` (heap model)

`_deleteMessageBatch` consumes its argument destructively
(`messages.splice(0, 10)` empties the array), but `deleteMessage` passes
it the fresh copy `[].concat(message)`.  A small explicit store of arrays
makes that aliasing visible: references are indices, `concat` allocates,
`splice` mutates in place. -/

/-- A store of JS arrays of messages; a reference is an index into it. -/
abbrev Store := List (List Msg)

/-- `[].concat(message)`: allocate a fresh array holding the same
elements; returns the store and the new reference. -/
def concatCopy (st : Store) (r : ℕ) : Store × ℕ :=
  (st ++ [st.getD r []], st.length)

/-- The `while (messages.length) { ... messages.splice(0, 10) ... }` loop
of `_deleteMessageBatch`, acting on the array behind `r`: it drains the
array in place and returns the chunks spliced off, in order. -/
def batchDrain (st : Store) (r : ℕ) : Store × List (List Msg) :=
  match h : st.getD r [] with
  | [] => (st, [])
  | x :: xs =>
    let rest := batchDrain (st.set r ((x :: xs).drop 10)) r
    (rest.1, (x :: xs).take 10 :: rest.2)
termination_by (st.getD r []).length
decreasing_by
  have hr : r < st.length := by
    by_contra hcon
    rw [List.getD_eq_getElem?_getD,
      List.getElem?_eq_none (Nat.le_of_not_lt hcon)] at h
    exact List.noConfusion h
  have hset : (st.set r ((x :: xs).drop 10)).getD r [] = (x :: xs).drop 10 := by
    simp [List.getD_eq_getElem?_getD, List.getElem?_set_eq_of_lt _ hr]
  rw [hset, h]
  simp only [List.length_drop, List.length_cons]
  omega

/-- The batch branch of `deleteMessage` on the store: copy the caller's
array, drain the copy into chunks, and (on success) emit
`message:processed` with the caller's original array.  Returns the final
store, the chunks handed to `deleteMessageBatch`, and the payload of the
success notification. -/
def deleteMessageStore (st : Store) (r : ℕ) :
    Store × List (List Msg) × List Msg :=
  let copy := concatCopy st r
  let drained := batchDrain copy.1 copy.2
  (drained.1, drained.2, (drained.1).getD r [])

end Receiver

/-! ## Lemmas about the Memory buffer -/

namespace Memory

theorem startTimer_items {α : Type} (s : MemState α) :
    (startTimer s).items = s.items := by
  by_cases h : s.timerOn <;> simp [startTimer, h]

theorem startTimer_timerOn {α : Type} (s : MemState α) :
    (startTimer s).timerOn = true := by
  by_cases h : s.timerOn <;> simp [startTimer, h]

/-- Items are conserved by the array path of `add`: the flushed batches
followed by what stays in the buffer are exactly the old buffer contents
followed by the incoming items, in order. -/
theorem addArr_conservation {α : Type} (cap : ℕ) (hcap : 1 ≤ cap)
    (s : MemState α) (xs : List α) :
    ((addArr cap hcap s xs).1).flatten ++ ((addArr cap hcap s xs).2).items =
      s.items ++ xs := by
  induction s, xs using addArr.induct cap hcap with
  | case1 s xs h ih =>
    rw [addArr]
    simp only [dif_pos h, List.flatten_cons, List.append_assoc] at ih ⊢
    rw [ih]
    simp [List.take_append_drop]
  | case2 s xs h h2 =>
    rw [addArr]
    simp [dif_neg h, if_pos h2]
  | case3 s xs h h2 =>
    rw [addArr]
    simp [dif_neg h, if_neg h2, startTimer_items]

/-- No flush emitted by the array path of `add` exceeds `bufferSize`,
provided the buffer held at most `bufferSize` items to begin with. -/
theorem addArr_flushes_le {α : Type} (cap : ℕ) (hcap : 1 ≤ cap)
    (s : MemState α) (xs : List α) (hs : s.items.length ≤ cap) :
    ∀ f ∈ (addArr cap hcap s xs).1, f.length ≤ cap := by
  induction s, xs using addArr.induct cap hcap with
  | case1 s xs h ih =>
    rw [addArr]
    simp only [dif_pos h, List.mem_cons]
    intro f hf
    rcases hf with hf | hf
    · subst hf
      simp only [List.length_append, List.length_take]
      omega
    · exact ih (by simp) f hf
  | case2 s xs h h2 =>
    rw [addArr]
    simp only [dif_neg h, if_pos h2, List.mem_singleton]
    intro f hf
    subst hf
    simp only [List.length_append]
    omega
  | case3 s xs h h2 =>
    rw [addArr]
    simp [dif_neg h, if_neg h2]

/-- The array path of `add` leaves strictly fewer than `bufferSize` items
in the buffer, provided that held before. -/
theorem addArr_items_lt {α : Type} (cap : ℕ) (hcap : 1 ≤ cap)
    (s : MemState α) (xs : List α) (hs : s.items.length < cap) :
    ((addArr cap hcap s xs).2).items.length < cap := by
  induction s, xs using addArr.induct cap hcap with
  | case1 s xs h ih =>
    rw [addArr]
    simpa only [dif_pos h] using ih (by simpa using hcap)
  | case2 s xs h h2 =>
    rw [addArr]
    simpa [dif_neg h, if_pos h2] using hcap
  | case3 s xs h h2 =>
    rw [addArr]
    simp only [dif_neg h, if_neg h2, startTimer_items, List.length_append]
    omega

/-- The array path of `add` preserves the timer/size invariant when the
incoming array is non-empty. -/
theorem addArr_invT {α : Type} (cap : ℕ) (hcap : 1 ≤ cap)
    (s : MemState α) (xs : List α) (hxs : xs ≠ []) (hs : InvT cap s) :
    InvT cap ((addArr cap hcap s xs).2) := by
  induction s, xs using addArr.induct cap hcap with
  | case1 s xs h ih =>
    rw [addArr]
    simp only [dif_pos h]
    refine ih ?_ ⟨by simpa [InvT] using hcap, by simp [InvT]⟩
    have h1 := hs.1
    intro hcontra
    have hlen := congrArg List.length hcontra
    simp only [List.length_drop, List.length_nil] at hlen
    omega
  | case2 s xs h h2 =>
    rw [addArr]
    simp only [dif_neg h, if_pos h2]
    exact ⟨by simpa [InvT] using hcap, by simp [InvT]⟩
  | case3 s xs h h2 =>
    rw [addArr]
    have hx : 0 < xs.length := List.length_pos.mpr hxs
    simp only [dif_neg h, if_neg h2]
    constructor
    · simp only [startTimer_items, List.length_append]
      omega
    · simp only [startTimer_timerOn, startTimer_items, List.length_append,
        true_iff]
      omega

/-- The single-item path of `add` conserves items. -/
theorem addOne_conservation {α : Type} (cap : ℕ) (s : MemState α) (x : α) :
    ((addOne cap s x).1).flatten ++ ((addOne cap s x).2).items =
      s.items ++ [x] := by
  by_cases h : s.items.length + 1 = cap <;>
    simp [addOne, h, startTimer_items]

/-- No flush emitted by the single-item path of `add` exceeds `bufferSize`. -/
theorem addOne_flushes_le {α : Type} (cap : ℕ) (s : MemState α) (x : α)
    (hs : s.items.length ≤ cap) :
    ∀ f ∈ (addOne cap s x).1, f.length ≤ cap := by
  by_cases h : s.items.length + 1 = cap
  · intro f hf
    simp only [addOne, List.length_append, List.length_singleton, h,
      if_true, List.mem_singleton] at hf
    simp [hf]
    omega
  · simp [addOne, h]

/-- The single-item path of `add` preserves the strict size bound. -/
theorem addOne_items_lt {α : Type} (cap : ℕ) (hcap : 1 ≤ cap)
    (s : MemState α) (x : α) (hs : s.items.length < cap) :
    ((addOne cap s x).2).items.length < cap := by
  by_cases h : s.items.length + 1 = cap
  · simp [addOne, h]
    omega
  · simp [addOne, h, startTimer_items]
    omega

/-- The single-item path of `add` preserves the timer/size invariant. -/
theorem addOne_invT {α : Type} (cap : ℕ) (hcap : 1 ≤ cap)
    (s : MemState α) (x : α) (hs : InvT cap s) :
    InvT cap ((addOne cap s x).2) := by
  have h1 := hs.1
  by_cases h : s.items.length + 1 = cap
  · exact ⟨by simpa [addOne, h] using hcap, by simp [addOne, h]⟩
  · refine ⟨?_, ?_⟩
    · simp only [addOne, List.length_append, List.length_singleton, h,
        if_false, startTimer_items]
      omega
    · simp [addOne, h, startTimer_timerOn, startTimer_items]

/-- `add` conserves items on either kind of argument. -/
theorem memAdd_conservation {α : Type} (cap : ℕ) (hcap : 1 ≤ cap)
    (s : MemState α) (i : AddInput α) :
    ((memAdd cap hcap s i).1).flatten ++ ((memAdd cap hcap s i).2).items =
      s.items ++ i.itemsOf := by
  cases i with
  | one a => exact addOne_conservation cap s a
  | arr l => exact addArr_conservation cap hcap s l

theorem memAdd_flushes_le {α : Type} (cap : ℕ) (hcap : 1 ≤ cap)
    (s : MemState α) (i : AddInput α) (hs : s.items.length ≤ cap) :
    ∀ f ∈ (memAdd cap hcap s i).1, f.length ≤ cap := by
  cases i with
  | one a => exact addOne_flushes_le cap s a hs
  | arr l => exact addArr_flushes_le cap hcap s l hs

theorem memAdd_items_lt {α : Type} (cap : ℕ) (hcap : 1 ≤ cap)
    (s : MemState α) (i : AddInput α) (hs : s.items.length < cap) :
    ((memAdd cap hcap s i).2).items.length < cap := by
  cases i with
  | one a => exact addOne_items_lt cap hcap s a hs
  | arr l => exact addArr_items_lt cap hcap s l hs

theorem memAdd_invT {α : Type} (cap : ℕ) (hcap : 1 ≤ cap)
    (s : MemState α) (i : AddInput α) (hi : i.nonEmpty = true)
    (hs : InvT cap s) : InvT cap ((memAdd cap hcap s i).2) := by
  cases i with
  | one a => exact addOne_invT cap hcap s a hs
  | arr l =>
    refine addArr_invT cap hcap s l ?_ hs
    simpa [AddInput.nonEmpty, List.isEmpty_iff] using hi

/-- A sequence of `add` calls conserves items. -/
theorem runAdds_conservation {α : Type} (cap : ℕ) (hcap : 1 ≤ cap)
    (inputs : List (AddInput α)) :
    ∀ s : MemState α,
      ((runAdds cap hcap s inputs).1).flatten ++
          ((runAdds cap hcap s inputs).2).items =
        s.items ++ (inputs.map AddInput.itemsOf).flatten := by
  induction inputs with
  | nil => intro s; simp [runAdds]
  | cons i rest ih =>
    intro s
    simp only [runAdds, List.map_cons, List.flatten_cons, List.flatten_append]
    rw [List.append_assoc, ih, ← List.append_assoc,
      memAdd_conservation cap hcap s i]
    simp [List.append_assoc]

/-- Flushes emitted across a sequence of `add` calls never exceed
`bufferSize`, starting from a state within the size bound. -/
theorem runAdds_flushes_le {α : Type} (cap : ℕ) (hcap : 1 ≤ cap)
    (inputs : List (AddInput α)) :
    ∀ s : MemState α, s.items.length < cap →
      ∀ f ∈ (runAdds cap hcap s inputs).1, f.length ≤ cap := by
  induction inputs with
  | nil => intro s _; simp [runAdds]
  | cons i rest ih =>
    intro s hs f hf
    simp only [runAdds, List.mem_append] at hf
    rcases hf with hf | hf
    · exact memAdd_flushes_le cap hcap s i (Nat.le_of_lt hs) f hf
    · exact ih _ (memAdd_items_lt cap hcap s i hs) f hf

/-- The timer firing preserves the timer/size invariant. -/
theorem fireTimer_invT {α : Type} (cap : ℕ) (hcap : 1 ≤ cap)
    (s : MemState α) (hs : InvT cap s) : InvT cap (fireTimer s) := by
  by_cases h : s.timerOn
  · exact ⟨by simpa [fireTimer, h, flushFire] using hcap,
      by simp [fireTimer, h, flushFire]⟩
  · simpa [fireTimer, h] using hs

/-- Any sequence of non-empty `add`s and timer firings preserves the
timer/size invariant. -/
theorem runOps_invT {α : Type} (cap : ℕ) (hcap : 1 ≤ cap)
    (ops : List (MemOp α)) :
    ∀ s : MemState α, (∀ op ∈ ops, op.nonEmpty = true) → InvT cap s →
      InvT cap (runOps cap hcap s ops) := by
  induction ops with
  | nil => intro s _ hs; simpa [runOps] using hs
  | cons op rest ih =>
    intro s hne hs
    simp only [runOps]
    refine ih _ (fun o ho => hne o (List.mem_cons_of_mem _ ho)) ?_
    have hop := hne op (List.mem_cons_self _ _)
    cases op with
    | add i => exact memAdd_invT cap hcap s i hop hs
    | fire => exact fireTimer_invT cap hcap s hs

end Memory

/-! ## Lemmas about chunking -/

theorem chunks10_flatten {α : Type} (l : List α) :
    (chunks10 l).flatten = l := by
  induction l using chunks10.induct with
  | case1 => simp [chunks10]
  | case2 x xs ih =>
    rw [chunks10]
    simp only [List.flatten_cons, ih, List.take_append_drop]

theorem chunks10_le {α : Type} (l : List α) :
    ∀ c ∈ chunks10 l, c.length ≤ 10 := by
  induction l using chunks10.induct with
  | case1 => simp [chunks10]
  | case2 x xs ih =>
    rw [chunks10]
    intro c hc
    rcases List.mem_cons.mp hc with h | h
    · subst h
      simpa using List.length_take_le 10 (x :: xs)
    · exact ih c h

/-- The splice loop issues `⌈n / 10⌉` chunks. -/
theorem chunks10_length {α : Type} (l : List α) :
    (chunks10 l).length = (l.length + 9) / 10 := by
  induction l using chunks10.induct with
  | case1 => simp [chunks10]
  | case2 x xs ih =>
    rw [chunks10]
    simp only [List.length_cons, ih, List.length_drop]
    omega

/-! ## Claim theorems -/

/-- C3: for every finite sequence of `add` calls on a `Memory` buffer with
capacity ≥ 1, each call adding a non-empty item or list of items, every
emitted flush contains at most `capacity` items, and the concatenation of
all emitted flushes followed by the items remaining in the buffer equals
the concatenation of all added items in their original order. -/
theorem c3_buffer_conservation {α : Type} (cap : ℕ) (hcap : 1 ≤ cap)
    (inputs : List (Memory.AddInput α))
    (hne : ∀ i ∈ inputs, i.nonEmpty = true) :
    (∀ f ∈ (Memory.runAdds cap hcap (Memory.initState α) inputs).1,
        f.length ≤ cap) ∧
      ((Memory.runAdds cap hcap (Memory.initState α) inputs).1).flatten ++
          ((Memory.runAdds cap hcap (Memory.initState α) inputs).2).items =
        (inputs.map Memory.AddInput.itemsOf).flatten := by
  constructor
  · exact Memory.runAdds_flushes_le cap hcap inputs _
      (by simpa [Memory.initState] using hcap)
  · simpa [Memory.initState] using
      Memory.runAdds_conservation cap hcap inputs (Memory.initState α)

/-- Witness for C3 at capacity 3 with adds `[1,2]`, `5`, `[7,8,9,10]`. -/
theorem c3_witness :
    (∀ i ∈ ([.arr [1, 2], .one 5, .arr [7, 8, 9, 10]] :
        List (Memory.AddInput ℕ)), i.nonEmpty = true) ∧
      ((∀ f ∈ (Memory.runAdds 3 oneLeThree (Memory.initState ℕ)
            [.arr [1, 2], .one 5, .arr [7, 8, 9, 10]]).1, f.length ≤ 3) ∧
        ((Memory.runAdds 3 oneLeThree (Memory.initState ℕ)
              [.arr [1, 2], .one 5, .arr [7, 8, 9, 10]]).1).flatten ++
            ((Memory.runAdds 3 oneLeThree (Memory.initState ℕ)
              [.arr [1, 2], .one 5, .arr [7, 8, 9, 10]]).2).items =
          (([.arr [1, 2], .one 5, .arr [7, 8, 9, 10]] :
              List (Memory.AddInput ℕ)).map Memory.AddInput.itemsOf).flatten) :=
  ⟨by decide, c3_buffer_conservation 3 oneLeThree _ (by decide)⟩

/-- C6 counterexample: the claim extends the invariant to `add` calls of
an empty list, but `add([])` on a fresh buffer (capacity 2) starts the
deferred-flush timer while the buffer holds 0 items, so a live timer
exists with `len(items) = 0`, falsifying "a live timer exists iff
`0 < len(items) < capacity`". -/
theorem c6_counterexample :
    (Memory.stepOp 2 oneLeTwo (Memory.initState ℕ)
        (.add (.arr []))).timerOn = true ∧
      (Memory.stepOp 2 oneLeTwo (Memory.initState ℕ)
        (.add (.arr []))).items.length = 0 ∧
      ¬ ((Memory.stepOp 2 oneLeTwo (Memory.initState ℕ)
            (.add (.arr []))).timerOn = true ↔
          (0 < (Memory.stepOp 2 oneLeTwo (Memory.initState ℕ)
              (.add (.arr []))).items.length ∧
            (Memory.stepOp 2 oneLeTwo (Memory.initState ℕ)
              (.add (.arr []))).items.length < 2)) := by
  have h : Memory.stepOp 2 oneLeTwo (Memory.initState ℕ) (.add (.arr [])) =
      ⟨[], true⟩ := by
    rw [Memory.stepOp, Memory.memAdd, Memory.addArr]
    norm_num [Memory.initState, Memory.startTimer]
  rw [h]
  simp

/-- C6 amended: for every `Memory` buffer state reachable by a sequence of
`add` and timer-flush operations in which every `add` carries at least one
item, `0 ≤ len(items) ≤ capacity` holds and a live deferred-flush timer
exists iff `0 < len(items) < capacity`.  (An `add` of an empty list breaks
the timer clause by starting a timer on an empty buffer, so it must be
excluded.) -/
theorem c6_amended {α : Type} (cap : ℕ) (hcap : 1 ≤ cap)
    (ops : List (Memory.MemOp α)) (hne : ∀ op ∈ ops, op.nonEmpty = true) :
    (Memory.runOps cap hcap (Memory.initState α) ops).items.length ≤ cap ∧
      ((Memory.runOps cap hcap (Memory.initState α) ops).timerOn = true ↔
        (0 < (Memory.runOps cap hcap (Memory.initState α) ops).items.length ∧
          (Memory.runOps cap hcap (Memory.initState α) ops).items.length <
            cap)) := by
  have h := Memory.runOps_invT cap hcap ops (Memory.initState α) hne
    ⟨by simpa [Memory.initState] using hcap, by simp [Memory.initState]⟩
  refine ⟨Nat.le_of_lt h.1, ?_⟩
  constructor
  · intro ht
    exact ⟨h.2.mp ht, h.1⟩
  · intro ht
    exact h.2.mpr ht.1

/-- Witness for C6 at capacity 2 with ops add 1, timer fire, add `[4,5]`,
add 7. -/
theorem c6_witness :
    (∀ op ∈ ([.add (.one 1), .fire, .add (.arr [4, 5]), .add (.one 7)] :
        List (Memory.MemOp ℕ)), op.nonEmpty = true) ∧
      ((Memory.runOps 2 oneLeTwo (Memory.initState ℕ)
            [.add (.one 1), .fire, .add (.arr [4, 5]),
              .add (.one 7)]).items.length ≤ 2 ∧
        ((Memory.runOps 2 oneLeTwo (Memory.initState ℕ)
              [.add (.one 1), .fire, .add (.arr [4, 5]),
                .add (.one 7)]).timerOn = true ↔
          (0 < (Memory.runOps 2 oneLeTwo (Memory.initState ℕ)
              [.add (.one 1), .fire, .add (.arr [4, 5]),
                .add (.one 7)]).items.length ∧
            (Memory.runOps 2 oneLeTwo (Memory.initState ℕ)
              [.add (.one 1), .fire, .add (.arr [4, 5]),
                .add (.one 7)]).items.length < 2))) :=
  ⟨by decide, c6_amended 2 oneLeTwo _ (by decide)⟩

/-- C1 counterexample: a receive failure with code 500 (neither 403 nor
`CredentialsError`) produces only the `error` emission — no `_poll()`
invocation, no receive request and no scheduled retry — so the consumer
does not "immediately issue another poll" as the claim states. -/
theorem c1_counterexample :
    Receiver.internalMessageReceiver none 10000
        (some ⟨.num 500⟩) none = [.emit .errorEv] ∧
      Receiver.Action.pollInvoke ∉
        Receiver.internalMessageReceiver none 10000 (some ⟨.num 500⟩) none ∧
      Receiver.Action.receiveCall ∉
        Receiver.internalMessageReceiver none 10000 (some ⟨.num 500⟩) none ∧
      ∀ a ∈ Receiver.internalMessageReceiver none 10000
          (some ⟨.num 500⟩) none, a.isSchedule = false := by
  decide

/-- C1 amended: for every receive failure that is not classified as an
authentication failure, the consumer emits an `error` notification and
then returns without issuing another poll, scheduling one, or issuing a
receive — the loop goes idle until polling is triggered externally. -/
theorem c1_amended (bufferSize : Option ℕ) (authTimeout : ℕ)
    (e : Receiver.SqsErr) (h : Receiver.isAuthErr e = false)
    (response : Option (List Receiver.Msg)) :
    Receiver.internalMessageReceiver bufferSize authTimeout (some e)
        response = [.emit .errorEv] ∧
      Receiver.Action.pollInvoke ∉
        Receiver.internalMessageReceiver bufferSize authTimeout (some e)
          response ∧
      Receiver.Action.receiveCall ∉
        Receiver.internalMessageReceiver bufferSize authTimeout (some e)
          response ∧
      ∀ a ∈ Receiver.internalMessageReceiver bufferSize authTimeout (some e)
          response, a.isSchedule = false := by
  simp [Receiver.internalMessageReceiver, h, Receiver.Action.isSchedule]

/-- Witness for C1 (amended) at error code 500. -/
theorem c1_witness :
    Receiver.isAuthErr ⟨.num 500⟩ = false ∧
      (Receiver.internalMessageReceiver (some 20) 7000
          (some ⟨.num 500⟩) none = [.emit .errorEv] ∧
        Receiver.Action.pollInvoke ∉
          Receiver.internalMessageReceiver (some 20) 7000
            (some ⟨.num 500⟩) none ∧
        Receiver.Action.receiveCall ∉
          Receiver.internalMessageReceiver (some 20) 7000
            (some ⟨.num 500⟩) none ∧
        ∀ a ∈ Receiver.internalMessageReceiver (some 20) 7000
            (some ⟨.num 500⟩) none, a.isSchedule = false) :=
  ⟨by decide, c1_amended (some 20) 7000 ⟨.num 500⟩ (by decide) none⟩

/-- C2: with buffering configured, a successful receive of one message
emits `message:received` and hands the full set (with the bound poll
callback) to `buffer.add`, but the trace contains no `_poll()` invocation
and no receive request: the `Memory` buffer's `add(items)` takes a single
parameter and never invokes the callback, so no re-poll ever happens —
contradicting the documented poll-again-immediately behaviour the dead
`this._pollBound` argument was meant to implement. -/
theorem c2_no_repoll_after_buffer_add :
    Receiver.internalMessageProcessor (some 20) [Receiver.mkMsg 1] =
        [.emit (.messageReceived [Receiver.mkMsg 1]),
          .bufferAdd [Receiver.mkMsg 1] .bound] ∧
      Receiver.Action.pollInvoke ∉
        Receiver.internalMessageProcessor (some 20) [Receiver.mkMsg 1] ∧
      Receiver.Action.receiveCall ∉
        Receiver.internalMessageProcessor (some 20) [Receiver.mkMsg 1] := by
  decide

/-- C7: for every error value passed to the acknowledgment handle
`deleteMessage`, no delete call is issued, exactly one `processing:error`
notification is emitted (on its own channel, not `error`), and polling
resumes. -/
theorem c7_processing_error (delOneErr : Option Receiver.SqsErr)
    (res : ℕ → Receiver.BatchRes) :
    Receiver.deleteMessage delOneErr res .errVal =
        [.emit .processingErrorEv, .pollInvoke] ∧
      (∀ a ∈ Receiver.deleteMessage delOneErr res .errVal,
        a.isDeleteCall = false) ∧
      (Receiver.deleteMessage delOneErr res .errVal).countP
          (fun a => a.isProcessingErrorEmit) = 1 ∧
      (Receiver.deleteMessage delOneErr res .errVal).countP
          (fun a => a == .emit .errorEv) = 0 ∧
      Receiver.Action.pollInvoke ∈
        Receiver.deleteMessage delOneErr res .errVal := by
  refine ⟨rfl, ?_, rfl, rfl, by simp [Receiver.deleteMessage]⟩
  intro a ha
  simp only [Receiver.deleteMessage, List.mem_cons, List.mem_singleton] at ha
  rcases ha with rfl | rfl | h
  · rfl
  · rfl
  · exact absurd h (by simp)

/-- C8: a receive failure with code 403 emits `error` and schedules a
retry after the default 10000 ms authentication back-off — but what it
schedules is the raw, unbound `this._poll` (not `this._pollBound`), and
an unbound scheduled callback does not execute as a poll of the same
consumer. -/
theorem c8_auth_backoff_unbound :
    Receiver.internalMessageReceiver none (Receiver.effAuthTimeout none)
        (some ⟨.num 403⟩) none =
        [.emit .errorEv, .schedule 10000 .unbound] ∧
      Receiver.effAuthTimeout none = 10000 ∧
      (∀ s : Receiver.RState,
        Receiver.runScheduledPoll .unbound s = none) ∧
      (Receiver.internalMessageReceiver none (Receiver.effAuthTimeout none)
          (some ⟨.str Receiver.credentialsCode⟩) none =
        [.emit .errorEv, .schedule 10000 .unbound]) := by
  exact ⟨rfl, rfl, fun s => rfl, rfl⟩

/-- C9: after `stop()` sets the stopped flag, the next poll decision emits
`stopped` and issues no receive; every poll in a stopped state issues no
receive; and `stop()` changes nothing but the flag — in particular it
leaves an in-flight receive in flight. -/
theorem c9_stop_semantics (s s' : Receiver.RState)
    (h : s'.stopped = true) :
    Receiver.pollStep (Receiver.stop s) = [.emit .stoppedEv] ∧
      Receiver.Action.receiveCall ∉ Receiver.pollStep (Receiver.stop s) ∧
      Receiver.pollStep s' = [.emit .stoppedEv] ∧
      Receiver.Action.receiveCall ∉ Receiver.pollStep s' ∧
      (Receiver.stop s).inflight = s.inflight := by
  refine ⟨?_, ?_, ?_, ?_, rfl⟩ <;>
    simp [Receiver.pollStep, Receiver.stop, h]

/-- Witness for C9: a running consumer with a receive in flight. -/
theorem c9_witness :
    (⟨true, true⟩ : Receiver.RState).stopped = true ∧
      (Receiver.pollStep (Receiver.stop ⟨false, true⟩) =
          [.emit .stoppedEv] ∧
        Receiver.Action.receiveCall ∉
          Receiver.pollStep (Receiver.stop ⟨false, true⟩) ∧
        Receiver.pollStep ⟨true, true⟩ = [.emit .stoppedEv] ∧
        Receiver.Action.receiveCall ∉ Receiver.pollStep ⟨true, true⟩ ∧
        (Receiver.stop ⟨false, true⟩).inflight =
          (⟨false, true⟩ : Receiver.RState).inflight) :=
  ⟨rfl, c9_stop_semantics ⟨false, true⟩ ⟨true, true⟩ rfl⟩

/-- C4: acknowledging a message set of `n > 10` messages issues exactly
`⌈n/10⌉` delete-batch calls — in order, one per consecutive arrival-order
chunk of at most 10 entries; if every chunk succeeds exactly one
`message:processed` fires; if any chunk fails no `message:processed`
fires and an `error` notification fires instead; polling resumes in both
cases. -/
theorem c4_batch_ack (delOneErr : Option Receiver.SqsErr)
    (res : ℕ → Receiver.BatchRes) (l : List Receiver.Msg)
    (h : 10 < l.length) :
    (Receiver.deleteMessage delOneErr res (.arr l)).countP
        (fun a => a.isBatchCall) = (l.length + 9) / 10 ∧
      (Receiver.deleteMessage delOneErr res (.arr l)).filter
          (fun a => a.isBatchCall) =
        (chunks10 l).map
          (fun c => Receiver.Action.deleteBatchCall (Receiver.entriesOf c)) ∧
      (chunks10 l).flatten = l ∧
      (∀ c ∈ chunks10 l, c.length ≤ 10) ∧
      (Receiver.allChunksOk res (chunks10 l).length = true →
        (Receiver.deleteMessage delOneErr res (.arr l)).countP
            (fun a => a.isProcessedEmit) = 1 ∧
          Receiver.Action.pollInvoke ∈
            Receiver.deleteMessage delOneErr res (.arr l)) ∧
      (Receiver.allChunksOk res (chunks10 l).length = false →
        (Receiver.deleteMessage delOneErr res (.arr l)).countP
            (fun a => a.isProcessedEmit) = 0 ∧
          Receiver.Action.emit .errorEv ∈
            Receiver.deleteMessage delOneErr res (.arr l) ∧
          Receiver.Action.pollInvoke ∈
            Receiver.deleteMessage delOneErr res (.arr l)) := by
  have hne : ¬ l.length = 1 := by omega
  have hcallsB : ∀ a ∈ (chunks10 l).map
      (fun c => Receiver.Action.deleteBatchCall (Receiver.entriesOf c)),
      a.isBatchCall = true := by
    intro a ha
    rcases List.mem_map.mp ha with ⟨c, _, rfl⟩
    rfl
  have hcallsP : ∀ a ∈ (chunks10 l).map
      (fun c => Receiver.Action.deleteBatchCall (Receiver.entriesOf c)),
      ¬ a.isProcessedEmit = true := by
    intro a ha
    rcases List.mem_map.mp ha with ⟨c, _, rfl⟩
    simp [Receiver.Action.isProcessedEmit]
  simp only [Receiver.deleteMessage, if_neg hne, Receiver.deleteBatchPath]
  by_cases hok : Receiver.allChunksOk res (chunks10 l).length = true <;>
    simp only [hok, if_true, if_false, Bool.false_eq_true] <;>
    refine ⟨?_, ?_, chunks10_flatten l, chunks10_le l, ?_, ?_⟩
  · rw [List.countP_append, List.countP_eq_length.mpr hcallsB,
      List.length_map, chunks10_length]
    simp [Receiver.Action.isBatchCall]
  · rw [List.filter_append, List.filter_eq_self.mpr hcallsB]
    simp [Receiver.Action.isBatchCall]
  · intro _
    constructor
    · rw [List.countP_append, List.countP_eq_zero.mpr hcallsP]
      simp [Receiver.Action.isProcessedEmit]
    · simp
  · intro hcon
    exact absurd hcon (by simp)
  · rw [List.countP_append, List.countP_eq_length.mpr hcallsB,
      List.length_map, chunks10_length]
    simp [Receiver.Action.isBatchCall]
  · rw [List.filter_append, List.filter_eq_self.mpr hcallsB]
    simp [Receiver.Action.isBatchCall]
  · intro hcon
    exact hcon.elim
  · intro _
    refine ⟨?_, by simp, by simp⟩
    rw [List.countP_append, List.countP_eq_zero.mpr hcallsP]
    simp [Receiver.Action.isProcessedEmit]

/-- Witness for C4: 11 messages, all chunk deletions succeeding. -/
theorem c4_witness :
    10 < ((List.range 11).map Receiver.mkMsg).length ∧
      ((Receiver.deleteMessage none (fun _ => .ok 0)
            (.arr ((List.range 11).map Receiver.mkMsg))).countP
          (fun a => a.isBatchCall) =
        (((List.range 11).map Receiver.mkMsg).length + 9) / 10 ∧
        (Receiver.deleteMessage none (fun _ => .ok 0)
              (.arr ((List.range 11).map Receiver.mkMsg))).filter
            (fun a => a.isBatchCall) =
          (chunks10 ((List.range 11).map Receiver.mkMsg)).map
            (fun c =>
              Receiver.Action.deleteBatchCall (Receiver.entriesOf c)) ∧
        (chunks10 ((List.range 11).map Receiver.mkMsg)).flatten =
          (List.range 11).map Receiver.mkMsg ∧
        (∀ c ∈ chunks10 ((List.range 11).map Receiver.mkMsg),
          c.length ≤ 10) ∧
        (Receiver.allChunksOk (fun _ => .ok 0)
            (chunks10 ((List.range 11).map Receiver.mkMsg)).length = true →
          (Receiver.deleteMessage none (fun _ => .ok 0)
                (.arr ((List.range 11).map Receiver.mkMsg))).countP
              (fun a => a.isProcessedEmit) = 1 ∧
            Receiver.Action.pollInvoke ∈
              Receiver.deleteMessage none (fun _ => .ok 0)
                (.arr ((List.range 11).map Receiver.mkMsg))) ∧
        (Receiver.allChunksOk (fun _ => .ok 0)
            (chunks10 ((List.range 11).map Receiver.mkMsg)).length = false →
          (Receiver.deleteMessage none (fun _ => .ok 0)
                (.arr ((List.range 11).map Receiver.mkMsg))).countP
              (fun a => a.isProcessedEmit) = 0 ∧
            Receiver.Action.emit .errorEv ∈
              Receiver.deleteMessage none (fun _ => .ok 0)
                (.arr ((List.range 11).map Receiver.mkMsg)) ∧
            Receiver.Action.pollInvoke ∈
              Receiver.deleteMessage none (fun _ => .ok 0)
                (.arr ((List.range 11).map Receiver.mkMsg)))) :=
  ⟨by decide, c4_batch_ack none (fun _ => .ok 0) _ (by decide)⟩

/-- C5 counterexample: with `queueUrl` and `messageReceiver` present,
`batchSize` omitted and `bufferSize = 1`, the claim demands a
configuration error (capacity 1 is not greater than the effective batch
size 1), but `_validate` compares the raw options — `1 <= undefined` is
false in JS — and construction succeeds. -/
theorem c5_counterexample :
    Receiver.validateResult ⟨true, true, none, some 1⟩ = none ∧
      Receiver.claimThrows ⟨true, true, none, some 1⟩ = true := by
  decide

/-- C5 amended: construction throws a configuration error iff `queueUrl`
is missing, or `messageReceiver` is missing, or `batchSize` is set and
lies outside `[1,10]`, or both `bufferSize` and `batchSize` are set with
`bufferSize ≤ batchSize`.  (The `bufferSize` check compares the raw
options, so it never fires when `batchSize` is omitted.) -/
theorem c5_amended (o : Receiver.ROptions) :
    (Receiver.validateResult o).isSome = true ↔ Receiver.amendedThrows o := by
  rcases o with ⟨q, m, bs, bf⟩
  cases q <;> cases m <;> cases bs <;> cases bf <;>
    simp [Receiver.validateResult, Receiver.amendedThrows,
      Receiver.batchSizeOutOfRange, Receiver.bufferSizeLeBatch] <;>
    split_ifs <;> simp_all

/-- Setting an index that already holds `[]` (or is out of range) leaves
the store unchanged. -/
theorem set_nil_of_getD_nil {α : Type} :
    ∀ (st : List (List α)) (r : ℕ), st.getD r [] = [] → st.set r [] = st := by
  intro st
  induction st with
  | nil => intro r _; rfl
  | cons a t ih =>
    intro r hr
    cases r with
    | zero =>
      simp only [List.getD_cons_zero] at hr
      simp [hr]
    | succ r =>
      simp only [List.getD_cons_succ] at hr
      simp [List.set, ih r hr]

/-- The splice loop of `_deleteMessageBatch` empties exactly the array it
is handed and yields its 10-chunks, leaving every other array alone. -/
theorem batchDrain_spec :
    ∀ (st : Receiver.Store) (r : ℕ),
      Receiver.batchDrain st r = (st.set r [], chunks10 (st.getD r [])) := by
  intro st r
  induction st, r using Receiver.batchDrain.induct with
  | case1 st r h =>
    rw [Receiver.batchDrain.eq_def]
    rw [h, set_nil_of_getD_nil st r h]
    simp [chunks10]
  | case2 st r x xs h ih =>
    have hr : r < st.length := by
      by_contra hcon
      rw [List.getD_eq_getElem?_getD,
        List.getElem?_eq_none (Nat.le_of_not_lt hcon)] at h
      exact List.noConfusion h
    rw [Receiver.batchDrain.eq_def, h]
    simp only [ih, List.set_set]
    have hget : (st.set r ((x :: xs).drop 10)).getD r [] =
        (x :: xs).drop 10 := by
      simp [List.getD_eq_getElem?_getD, List.getElem?_set_eq_of_lt _ hr]
    rw [hget]
    conv_rhs => rw [chunks10]

/-- C10: for every multi-element message array acknowledged through
`deleteMessage`, the caller's array is untouched — `_deleteMessageBatch`
drains the `[].concat(message)` copy, so after the call the original
reference still holds the same messages in the same order, that same
array is the payload of the success notification, and the chunks handed
to the delete-batch calls carry exactly its messages. -/
theorem c10_caller_array_preserved (st : Receiver.Store) (r : ℕ)
    (hr : r < st.length) (hlen : 2 ≤ (st.getD r []).length) :
    ((Receiver.deleteMessageStore st r).1).getD r [] = st.getD r [] ∧
      (Receiver.deleteMessageStore st r).2.2 = st.getD r [] ∧
      ((Receiver.deleteMessageStore st r).2.1).flatten = st.getD r [] := by
  have hgetNew : (st ++ [st.getD r []]).getD st.length [] = st.getD r [] := by
    simp [List.getD_eq_getElem?_getD, List.getElem?_concat_length]
  have hne : st.length ≠ r := (Nat.ne_of_lt hr).symm
  have hgetOld : ((st ++ [st.getD r []]).set st.length []).getD r [] =
      st.getD r [] := by
    simp [List.getD_eq_getElem?_getD, List.getElem?_set_ne hne,
      List.getElem?_append_left hr]
  simp only [Receiver.deleteMessageStore, Receiver.concatCopy,
    batchDrain_spec, hgetNew]
  exact ⟨hgetOld, hgetOld, chunks10_flatten _⟩

/-- Witness for C10: a store holding one three-message array. -/
theorem c10_witness :
    0 < ([[Receiver.mkMsg 0, Receiver.mkMsg 1, Receiver.mkMsg 2]] :
        Receiver.Store).length ∧
      2 ≤ (([[Receiver.mkMsg 0, Receiver.mkMsg 1, Receiver.mkMsg 2]] :
        Receiver.Store).getD 0 []).length ∧
      (((Receiver.deleteMessageStore
            [[Receiver.mkMsg 0, Receiver.mkMsg 1, Receiver.mkMsg 2]] 0).1).getD
          0 [] =
        ([[Receiver.mkMsg 0, Receiver.mkMsg 1, Receiver.mkMsg 2]] :
          Receiver.Store).getD 0 [] ∧
        (Receiver.deleteMessageStore
            [[Receiver.mkMsg 0, Receiver.mkMsg 1, Receiver.mkMsg 2]] 0).2.2 =
          ([[Receiver.mkMsg 0, Receiver.mkMsg 1, Receiver.mkMsg 2]] :
            Receiver.Store).getD 0 [] ∧
        ((Receiver.deleteMessageStore
            [[Receiver.mkMsg 0, Receiver.mkMsg 1,
              Receiver.mkMsg 2]] 0).2.1).flatten =
          ([[Receiver.mkMsg 0, Receiver.mkMsg 1, Receiver.mkMsg 2]] :
            Receiver.Store).getD 0 []) :=
  ⟨by decide, by decide,
    c10_caller_array_preserved
      [[Receiver.mkMsg 0, Receiver.mkMsg 1, Receiver.mkMsg 2]] 0
      (by decide) (by decide)⟩

end SqsBatch
